import Mathlib

/-!
Verification of the tenant-identity propagation core of this repository
(`internal/tenant/grpc.go`) and the CLI helper `splitAtIndex`
(`cmd/zoekt/main.go`), as a shallow embedding in Lean 4.

The `tenanttype` package (`internal/tenant/internal/tenanttype`) is not part
of the provided sources; its operations (`FromContext`, `WithTenant`,
`Unmarshal`, `Tenant.ID`) are modelled from the specification, as noted on
each definition.  Everything in the `Propagator` namespace and `splitAtIndex`
is translated directly from the Go sources.
-/

/-- Character for a decimal digit `d` (`0 ≤ d ≤ 9`).  Mirrors `strconv`'s
digit table `"0123456789…"`; indices above 9 never occur for base 10. -/
def digitChar : Nat → Char
  | 0 => '0' | 1 => '1' | 2 => '2' | 3 => '3' | 4 => '4'
  | 5 => '5' | 6 => '6' | 7 => '7' | 8 => '8' | 9 => '9'
  | _ => '*'

/-- Core loop of the decimal formatter, mirroring `strconv.Itoa`'s
formatting of a nonnegative integer: peel off the least significant digit
and prepend it.  `fuel` is a structural-recursion bound; every call site
supplies `fuel ≥ n`, which is enough since `n / 10` shrinks at least as
fast as the fuel. -/
def itoaCore : Nat → Nat → List Char → List Char
  | 0, _, acc => acc
  | _ + 1, 0, acc => acc
  | fuel + 1, n + 1, acc =>
      itoaCore fuel ((n + 1) / 10) (digitChar ((n + 1) % 10) :: acc)

/-- Formatter `strconv.Itoa` restricted to nonnegative integers: the base-10 string of
`n` with no leading zeros, no sign and no whitespace. -/
def itoa (n : Nat) : String :=
  if n = 0 then "0" else String.mk (itoaCore n n [])

/-- Whether `c` is an ASCII decimal digit (`'0'`–`'9'`). -/
def isDigitCharB (c : Char) : Bool := 48 ≤ c.toNat && c.toNat ≤ 57

/-- Modelled from the spec: a string is a valid textual encoding of a
TenantIdentifier iff it is the canonical base-10 form of a positive
integer — nonempty, all decimal digits, leading digit nonzero
("no leading zeros, no sign for positive values, no whitespace"). -/
def isValidTenantEncoding (s : String) : Bool :=
  match s.data with
  | [] => false
  | c :: cs => (49 ≤ c.toNat && c.toNat ≤ 57) && cs.all isDigitCharB

/-- Value of a decimal digit string, most significant first, accumulated
onto `acc` (standard base-10 left fold). -/
def decodeDigitsFrom : Nat → List Char → Nat
  | acc, [] => acc
  | acc, c :: cs => decodeDigitsFrom (10 * acc + (c.toNat - 48)) cs

/-- Value of a decimal digit string, most significant digit first. -/
def decodeDigits (l : List Char) : Nat := decodeDigitsFrom 0 l

/-- Modelled from the spec: `TenantIdentifier` is "a positive integer
uniquely naming a tenant", immutable once constructed. -/
def Tenant : Type := { n : Nat // 1 ≤ n }

instance : DecidableEq Tenant :=
  inferInstanceAs (DecidableEq { n : Nat // 1 ≤ n })

/-- Modelled from the spec: `id.ID() -> integer`, "the canonical numeric
value, used for textual encoding". -/
def Tenant.ID (t : Tenant) : Nat := t.val

theorem digitChar_toNat {d : Nat} (h : d ≤ 9) : (digitChar d).toNat = 48 + d := by
  interval_cases d <;> rfl

theorem decodeDigitsFrom_nil (acc : Nat) : decodeDigitsFrom acc [] = acc := rfl

theorem decodeDigitsFrom_cons (acc : Nat) (c : Char) (cs : List Char) :
    decodeDigitsFrom acc (c :: cs) = decodeDigitsFrom (10 * acc + (c.toNat - 48)) cs := rfl

theorem decodeDigitsFrom_le (acc : Nat) (l : List Char) :
    acc ≤ decodeDigitsFrom acc l := by
  induction l generalizing acc with
  | nil => rw [decodeDigitsFrom_nil]
  | cons c cs ih =>
      calc acc ≤ 10 * acc + (c.toNat - 48) := by omega
        _ ≤ decodeDigitsFrom (10 * acc + (c.toNat - 48)) cs := ih _
        _ = decodeDigitsFrom acc (c :: cs) := (decodeDigitsFrom_cons ..).symm

theorem itoaCore_zero_fuel (n : Nat) (acc : List Char) :
    itoaCore 0 n acc = acc := by cases n <;> rfl

theorem itoaCore_zero (fuel : Nat) (acc : List Char) :
    itoaCore fuel 0 acc = acc := by cases fuel <;> rfl

theorem itoaCore_succ (fuel n : Nat) (acc : List Char) :
    itoaCore (fuel + 1) (n + 1) acc =
      itoaCore fuel ((n + 1) / 10) (digitChar ((n + 1) % 10) :: acc) := rfl

theorem decodeDigitsFrom_itoaCore (fuel : Nat) :
    ∀ n acc cs, n ≤ fuel →
      ∃ k, decodeDigitsFrom acc (itoaCore fuel n cs) =
        decodeDigitsFrom (acc * 10 ^ k + n) cs := by
  induction fuel with
  | zero =>
      intro n acc cs hn
      refine ⟨0, ?_⟩
      have hn0 : n = 0 := Nat.le_zero.mp hn
      rw [hn0, itoaCore_zero_fuel]
      norm_num
  | succ fuel ih =>
      intro n acc cs hn
      match n with
      | 0 =>
          refine ⟨0, ?_⟩
          rw [itoaCore_zero]
          norm_num
      | m + 1 =>
          rw [itoaCore_succ]
          have hdiv : (m + 1) / 10 ≤ fuel := by
            have h1 : (m + 1) / 10 < m + 1 := Nat.div_lt_self (Nat.succ_pos m) (by decide)
            omega
          obtain ⟨k, hk⟩ := ih ((m + 1) / 10) acc (digitChar ((m + 1) % 10) :: cs) hdiv
          refine ⟨k + 1, ?_⟩
          rw [hk, decodeDigitsFrom_cons]
          have hmod : (m + 1) % 10 ≤ 9 := by omega
          rw [digitChar_toNat hmod]
          have harith :
              10 * (acc * 10 ^ k + (m + 1) / 10) + (48 + (m + 1) % 10 - 48) =
                acc * 10 ^ (k + 1) + (m + 1) := by
            have hqr : 10 * ((m + 1) / 10) + (m + 1) % 10 = m + 1 :=
              Nat.div_add_mod (m + 1) 10
            rw [pow_succ, ← hqr]
            ring_nf
            omega
          rw [harith]

theorem itoaCore_all_digits (fuel : Nat) :
    ∀ n cs, cs.all isDigitCharB = true →
      (itoaCore fuel n cs).all isDigitCharB = true := by
  induction fuel with
  | zero => intro n cs h; rw [itoaCore_zero_fuel]; exact h
  | succ fuel ih =>
      intro n cs h
      match n with
      | 0 => rw [itoaCore_zero]; exact h
      | m + 1 =>
          rw [itoaCore_succ]
          refine ih _ _ ?_
          have hmod : (m + 1) % 10 ≤ 9 := by omega
          simp only [List.all_cons, Bool.and_eq_true]
          refine ⟨?_, h⟩
          simp only [isDigitCharB, digitChar_toNat hmod, Bool.and_eq_true,
            decide_eq_true_eq]
          omega

theorem itoaCore_leading (fuel : Nat) :
    ∀ n cs, 1 ≤ n → n ≤ fuel →
      ∃ c rest, itoaCore fuel n cs = c :: rest ∧ 49 ≤ c.toNat ∧ c.toNat ≤ 57 := by
  induction fuel with
  | zero => intro n cs h1 h2; omega
  | succ fuel ih =>
      intro n cs h1 h2
      match n with
      | m + 1 =>
          rw [itoaCore_succ]
          by_cases hq : (m + 1) / 10 = 0
          · have hlt : m + 1 < 10 := by omega
            have hmod : (m + 1) % 10 = m + 1 := Nat.mod_eq_of_lt hlt
            rw [hq, itoaCore_zero]
            refine ⟨digitChar ((m + 1) % 10), cs, rfl, ?_⟩
            rw [digitChar_toNat (by omega), hmod]
            omega
          · have hqle : (m + 1) / 10 ≤ fuel := by
              have h1' : (m + 1) / 10 < m + 1 := Nat.div_lt_self (Nat.succ_pos m) (by decide)
              omega
            obtain ⟨c, rest, hc, hrange⟩ :=
              ih ((m + 1) / 10) (digitChar ((m + 1) % 10) :: cs) (by omega) hqle
            exact ⟨c, rest, hc, hrange⟩

theorem isValidTenantEncoding_pos {s : String}
    (h : isValidTenantEncoding s = true) : 1 ≤ decodeDigits s.data := by
  unfold isValidTenantEncoding at h
  match hs : s.data with
  | [] => rw [hs] at h; simp at h
  | c :: cs =>
      rw [hs] at h
      simp only [Bool.and_eq_true, decide_eq_true_eq] at h
      have h49 : 49 ≤ c.toNat := h.1.1
      show 1 ≤ decodeDigitsFrom 0 (c :: cs)
      rw [decodeDigitsFrom_cons]
      have := decodeDigitsFrom_le (10 * 0 + (c.toNat - 48)) cs
      omega

theorem isValidTenantEncoding_mk (c : Char) (cs : List Char) :
    isValidTenantEncoding (String.mk (c :: cs)) =
      ((49 ≤ c.toNat && c.toNat ≤ 57) && cs.all isDigitCharB) := rfl

theorem itoa_valid {n : Nat} (h : 1 ≤ n) : isValidTenantEncoding (itoa n) = true := by
  rw [itoa, if_neg (by omega : ¬ n = 0)]
  obtain ⟨c, rest, hc, h49, h57⟩ := itoaCore_leading n n [] h (le_refl n)
  have hall : (itoaCore n n []).all isDigitCharB = true := itoaCore_all_digits n n [] rfl
  rw [hc] at hall ⊢
  rw [isValidTenantEncoding_mk]
  simp only [List.all_cons, Bool.and_eq_true] at hall
  simp only [Bool.and_eq_true, decide_eq_true_eq]
  exact ⟨⟨h49, h57⟩, hall.2⟩

theorem decodeDigits_itoa {n : Nat} (h : 1 ≤ n) : decodeDigits (itoa n).data = n := by
  rw [itoa, if_neg (by omega : ¬ n = 0)]
  show decodeDigits (itoaCore n n []) = n
  obtain ⟨k, hk⟩ := decodeDigitsFrom_itoaCore n n 0 [] (le_refl n)
  unfold decodeDigits
  rw [hk, decodeDigitsFrom_nil]
  simp

/-- The error kinds of the tenant layer, from the spec's error model:
`NoTenant` ("no identifier attached") and `InvalidTenantValue`
("malformed textual encoding; raised by Unmarshal"). -/
inductive TenantError where
  | noTenant : TenantError
  | invalidTenantValue : String → TenantError
deriving DecidableEq

/-- Modelled from the spec: the diagnostic text carried by a tenant error
(the "underlying parse failure message" that Inject's `InvalidArgument`
error embeds). -/
def TenantError.message : TenantError → String
  | .noTenant => "no tenant in context"
  | .invalidTenantValue raw => "invalid tenant value: " ++ raw

/-- Modelled from the spec: ExecutionContext, the ambient per-call carrier
that "may or may not hold an attached TenantIdentifier"; attaching a new
identifier shadows (does not merge with) any previous attachment.  The
context records its stack of attachments, most recent first. -/
structure Context where
  attachments : List Tenant
deriving DecidableEq

/-- A fresh execution context with nothing attached (`context.Background()`). -/
def Context.background : Context := ⟨[]⟩

namespace tenanttype

/-- Modelled from the spec: `WithTenant(ctx, id) -> ExecutionContext` —
"returns a new context derived from ctx with id attached, shadowing any
prior attachment. Does not mutate ctx." -/
def WithTenant (ctx : Context) (t : Tenant) : Context := ⟨t :: ctx.attachments⟩

/-- Modelled from the spec: `FromContext(ctx) -> (TenantIdentifier, error)` —
"returns the attached identifier, or fails with a NoTenant condition if none
is attached. Side-effect free." -/
def FromContext (ctx : Context) : Except TenantError Tenant :=
  match ctx.attachments with
  | [] => .error .noTenant
  | t :: _ => .ok t

/-- Modelled from the spec: `Unmarshal(raw string) -> (TenantIdentifier,
error)` — "parses a textual encoding into an identifier; fails with
InvalidTenantValue if raw is not a valid encoding of a positive integer
identifier (non-numeric, negative, zero, or otherwise malformed)". -/
def Unmarshal (raw : String) : Except TenantError Tenant :=
  if h : isValidTenantEncoding raw = true then
    .ok ⟨decodeDigits raw.data, isValidTenantEncoding_pos h⟩
  else
    .error (.invalidTenantValue raw)

end tenanttype

instance : DecidableEq (Except TenantError Tenant) := fun a b =>
  match a, b with
  | .error e, .error f =>
      if h : e = f then .isTrue (by rw [h]) else .isFalse (by simp [h])
  | .error _, .ok _ => .isFalse (by simp)
  | .ok _, .error _ => .isFalse (by simp)
  | .ok x, .ok y =>
      if h : x = y then .isTrue (by rw [h]) else .isFalse (by simp [h])

/-- ASCII lowercasing of one character, as `strings.ToLower` acts on the
ASCII metadata keys used here. -/
def asciiToLower : Char → Char
  | 'A' => 'a' | 'B' => 'b' | 'C' => 'c' | 'D' => 'd' | 'E' => 'e' | 'F' => 'f'
  | 'G' => 'g' | 'H' => 'h' | 'I' => 'i' | 'J' => 'j' | 'K' => 'k' | 'L' => 'l'
  | 'M' => 'm' | 'N' => 'n' | 'O' => 'o' | 'P' => 'p' | 'Q' => 'q' | 'R' => 'r'
  | 'S' => 's' | 'T' => 't' | 'U' => 'u' | 'V' => 'v' | 'W' => 'w' | 'X' => 'x'
  | 'Y' => 'y' | 'Z' => 'z' | c => c

/-- Function `strings.ToLower` on an ASCII string (gRPC normalizes metadata keys with
it on both `Get` and `Append`). -/
def lowercaseKey (s : String) : String := String.mk (s.data.map asciiToLower)

/-- gRPC metadata (`metadata.MD`, a `map[string][]string`), embedded as an
association list from keys to value lists.  gRPC stores keys lowercased. -/
abbrev MD := List (String × List String)

/-- Method `metadata.MD.Get`: lowercases the key and returns the associated value
list (empty when the key is absent). -/
def MD.get (md : MD) (k : String) : List String :=
  match md.find? (fun p => p.fst == lowercaseKey k) with
  | some p => p.snd
  | none => []

/-- Method `metadata.MD.Append` with a single value: lowercases the key and appends
the value to the existing list, inserting the key when absent. -/
def MD.appendVal (md : MD) (k v : String) : MD :=
  match md.find? (fun p => p.fst == lowercaseKey k) with
  | some _ => md.map fun p => if p.fst == lowercaseKey k then (p.fst, p.snd ++ [v]) else p
  | none => md ++ [(lowercaseKey k, [v])]

/-- The gRPC status codes used by this code (`google.golang.org/grpc/codes`). -/
inductive GrpcCode where
  | invalidArgument : GrpcCode
deriving DecidableEq

/-- A gRPC status error, `status.New(code, msg).Err()`. -/
structure GrpcStatus where
  code : GrpcCode
  message : String
deriving DecidableEq

/-- Constant `headerKeyTenantID` from `internal/tenant/grpc.go`: "the header key for
the tenant ID". -/
def headerKeyTenantID : String := "X-Sourcegraph-Tenant-ID"

/-- Constant `headerValueNoTenant` from `internal/tenant/grpc.go`: "indicates the
request has no tenant". -/
def headerValueNoTenant : String := "none"

namespace Propagator

/-- Method `Propagator.FromContext` from `internal/tenant/grpc.go`: build fresh
metadata; on a `tenanttype.FromContext` error append the no-tenant sentinel
under the tenant header key, otherwise append `strconv.Itoa(tenant.ID())`. -/
def FromContext (ctx : Context) : MD :=
  let md : MD := []
  match tenanttype.FromContext ctx with
  | .error _ => MD.appendVal md headerKeyTenantID headerValueNoTenant
  | .ok tenant => MD.appendVal md headerKeyTenantID (itoa (Tenant.ID tenant))

/-- Method `Propagator.InjectContext` from `internal/tenant/grpc.go`: read the first
value under the tenant header key (empty string when absent); on `""` or the
sentinel return `ctx` unchanged with no error; otherwise `Unmarshal` the
value, mapping failure to an `InvalidArgument` status that wraps the parse
error, and success to `WithTenant(ctx, tenant)`. -/
def InjectContext (ctx : Context) (md : MD) : Context × Option GrpcStatus :=
  let raw : String :=
    match MD.get md headerKeyTenantID with
    | [] => ""
    | v :: _ => v
  if raw = "" ∨ raw = headerValueNoTenant then
    (ctx, none)
  else
    match tenanttype.Unmarshal raw with
    | .error e =>
        (ctx, some ⟨GrpcCode.invalidArgument,
          "bad tenant value in metadata: " ++ TenantError.message e⟩)
    | .ok tenant => (tenanttype.WithTenant ctx tenant, none)

end Propagator

/-- Function `splitAtIndex` from `cmd/zoekt/main.go`: `(s[:idx], s[idx:])` when
`idx < len(s)`, and `(s, nil)` otherwise.  A Go slice expression with a
negative bound panics at run time; that panic is modelled as `none`. -/
def splitAtIndex {E : Type} (s : List E) (idx : Int) : Option (List E × List E) :=
  if idx < (s.length : Int) then
    if 0 ≤ idx then some (s.take idx.toNat, s.drop idx.toNat) else none
  else
    some (s, [])

theorem MD_appendVal_nil (k v : String) :
    MD.appendVal [] k v = [(lowercaseKey k, [v])] := rfl

theorem MD_get_singleton (k : String) (vs : List String) :
    MD.get [(lowercaseKey k, vs)] k = vs := by
  unfold MD.get
  rw [List.find?_cons_of_pos _ (by simp)]

theorem valid_ne_empty {s : String} (h : isValidTenantEncoding s = true) :
    s ≠ "" := by
  intro he; subst he; exact absurd h (by decide)

theorem valid_ne_sentinel {s : String} (h : isValidTenantEncoding s = true) :
    s ≠ headerValueNoTenant := by
  intro he; subst he; exact absurd h (by decide)

theorem Unmarshal_itoa (t : Tenant) :
    tenanttype.Unmarshal (itoa (Tenant.ID t)) = .ok t := by
  unfold tenanttype.Unmarshal
  have hv : isValidTenantEncoding (itoa (Tenant.ID t)) = true := itoa_valid t.property
  rw [dif_pos hv]
  exact congrArg Except.ok (Subtype.ext (decodeDigits_itoa t.property))

theorem FromContext_ok {ctx : Context} {t : Tenant}
    (h : tenanttype.FromContext ctx = .ok t) :
    Propagator.FromContext ctx =
      [(lowercaseKey headerKeyTenantID, [itoa (Tenant.ID t)])] := by
  unfold Propagator.FromContext
  rw [h]
  rfl

theorem FromContext_err {ctx : Context} {e : TenantError}
    (h : tenanttype.FromContext ctx = .error e) :
    Propagator.FromContext ctx =
      [(lowercaseKey headerKeyTenantID, [headerValueNoTenant])] := by
  unfold Propagator.FromContext
  rw [h]
  rfl

theorem InjectContext_absent {ctx : Context} {md : MD}
    (h : MD.get md headerKeyTenantID = []) :
    Propagator.InjectContext ctx md = (ctx, none) := by
  unfold Propagator.InjectContext
  rw [h]
  rfl

theorem InjectContext_first {ctx : Context} {md : MD} {v : String} {rest : List String}
    (h : MD.get md headerKeyTenantID = v :: rest) :
    Propagator.InjectContext ctx md =
      (if v = "" ∨ v = headerValueNoTenant then (ctx, none)
       else match tenanttype.Unmarshal v with
            | .error e =>
                (ctx, some ⟨GrpcCode.invalidArgument,
                  "bad tenant value in metadata: " ++ TenantError.message e⟩)
            | .ok tenant => (tenanttype.WithTenant ctx tenant, none)) := by
  unfold Propagator.InjectContext
  rw [h]

/-- Sample tenant with identifier 42, used in concrete witnesses. -/
def tenant42 : Tenant := ⟨42, by omega⟩

/-- Sample tenant with identifier 7, used in concrete witnesses. -/
def tenant7 : Tenant := ⟨7, by omega⟩

/-- Caller-side context with tenant 42 attached. -/
def ctx42 : Context := tenanttype.WithTenant Context.background tenant42

/-- Caller-side context with tenant 7 attached. -/
def ctx7 : Context := tenanttype.WithTenant Context.background tenant7

/-- Claim C1: end-to-end round trip — for every execution context with a
tenant attached, Extract produces the tenant-ID metadata entry holding the
decimal encoding of that tenant, and Inject applied to that metadata against
a fresh context returns, with no error, a context whose FromContext lookup
yields the same tenant. -/
theorem extract_inject_round_trip (ctx fresh : Context) (t : Tenant)
    (h : tenanttype.FromContext ctx = .ok t) :
    MD.get (Propagator.FromContext ctx) headerKeyTenantID = [itoa (Tenant.ID t)] ∧
    Propagator.InjectContext fresh (Propagator.FromContext ctx) =
      (tenanttype.WithTenant fresh t, none) ∧
    tenanttype.FromContext (tenanttype.WithTenant fresh t) = .ok t := by
  have hmd := FromContext_ok h
  have hvalid : isValidTenantEncoding (itoa (Tenant.ID t)) = true :=
    itoa_valid t.property
  have hget : MD.get (Propagator.FromContext ctx) headerKeyTenantID =
      [itoa (Tenant.ID t)] := by
    rw [hmd, MD_get_singleton]
  refine ⟨hget, ?_, rfl⟩
  rw [InjectContext_first hget,
    if_neg (by push_neg; exact ⟨valid_ne_empty hvalid, valid_ne_sentinel hvalid⟩),
    Unmarshal_itoa]

/-- Concrete C1 witness at tenant 42: the entry value is the string "42" and
the reconstructed tenant is 42. -/
theorem extract_inject_round_trip_witness :
    itoa (Tenant.ID tenant42) = "42" ∧
    tenanttype.FromContext ctx42 = .ok tenant42 ∧
    (MD.get (Propagator.FromContext ctx42) headerKeyTenantID =
       [itoa (Tenant.ID tenant42)] ∧
     Propagator.InjectContext Context.background (Propagator.FromContext ctx42) =
       (tenanttype.WithTenant Context.background tenant42, none) ∧
     tenanttype.FromContext (tenanttype.WithTenant Context.background tenant42) =
       .ok tenant42) :=
  ⟨by decide, by decide,
    extract_inject_round_trip ctx42 Context.background tenant42 (by decide)⟩

/-- Claim C2: Extract is total — for every context it returns a (single)
metadata entry, and when no tenant is attached (the NoTenant condition) the
entry's value is exactly the sentinel "none"; the NoTenant error is never
propagated to Extract's caller. -/
theorem extract_total_and_sentinel (ctx : Context) :
    (∃ v, Propagator.FromContext ctx = [(lowercaseKey headerKeyTenantID, [v])]) ∧
    (tenanttype.FromContext ctx = .error .noTenant →
      Propagator.FromContext ctx =
        [(lowercaseKey headerKeyTenantID, [headerValueNoTenant])]) := by
  constructor
  · cases hctx : tenanttype.FromContext ctx with
    | error e => exact ⟨headerValueNoTenant, FromContext_err hctx⟩
    | ok t => exact ⟨itoa (Tenant.ID t), FromContext_ok hctx⟩
  · intro h
    exact FromContext_err h

/-- Concrete C2 witness on the empty context. -/
theorem extract_total_and_sentinel_witness :
    tenanttype.FromContext Context.background = .error .noTenant ∧
    Propagator.FromContext Context.background =
      [(lowercaseKey headerKeyTenantID, [headerValueNoTenant])] :=
  ⟨by decide, (extract_total_and_sentinel Context.background).2 (by decide)⟩

/-- Claim C3: Inject with the reserved key absent, or whose first value
under it is the empty string or the sentinel "none", returns the original
context unchanged and no error; the absent-key case behaves identically to
the sentinel case. -/
theorem inject_absent_empty_or_sentinel (ctx : Context) (md : MD)
    (h : MD.get md headerKeyTenantID = [] ∨
         (MD.get md headerKeyTenantID).head? = some "" ∨
         (MD.get md headerKeyTenantID).head? = some headerValueNoTenant) :
    Propagator.InjectContext ctx md = (ctx, none) ∧
    Propagator.InjectContext ctx md = Propagator.InjectContext ctx [] := by
  have hmain : Propagator.InjectContext ctx md = (ctx, none) := by
    rcases h with h | h | h
    · exact InjectContext_absent h
    · cases hg : MD.get md headerKeyTenantID with
      | nil => exact InjectContext_absent hg
      | cons v rest =>
          rw [hg, List.head?_cons] at h
          have hv : v = "" := Option.some.inj h
          rw [InjectContext_first hg, hv, if_pos (Or.inl rfl)]
    · cases hg : MD.get md headerKeyTenantID with
      | nil => exact InjectContext_absent hg
      | cons v rest =>
          rw [hg, List.head?_cons] at h
          have hv : v = headerValueNoTenant := Option.some.inj h
          rw [InjectContext_first hg, hv, if_pos (Or.inr rfl)]
  refine ⟨hmain, ?_⟩
  rw [hmain]
  exact (InjectContext_absent (rfl : MD.get ([] : MD) headerKeyTenantID = [])).symm

/-- Concrete C3 witness: metadata holding only an unrelated key. -/
theorem inject_absent_empty_or_sentinel_witness :
    (MD.get [("other", ["1"])] headerKeyTenantID = [] ∨
     (MD.get [("other", ["1"])] headerKeyTenantID).head? = some "" ∨
     (MD.get [("other", ["1"])] headerKeyTenantID).head? = some headerValueNoTenant) ∧
    (Propagator.InjectContext Context.background [("other", ["1"])] =
       (Context.background, none) ∧
     Propagator.InjectContext Context.background [("other", ["1"])] =
       Propagator.InjectContext Context.background []) :=
  ⟨by decide,
    inject_absent_empty_or_sentinel Context.background [("other", ["1"])] (by decide)⟩

/-- Claim C4: Inject with a first value that is neither empty nor the
sentinel and is not a valid encoding of a positive integer returns an
InvalidArgument status embedding the underlying parse failure message,
together with the original context unchanged. -/
theorem inject_malformed_rejected (ctx : Context) (md : MD) (v : String)
    (rest : List String)
    (hmd : MD.get md headerKeyTenantID = v :: rest)
    (hne : v ≠ "") (hns : v ≠ headerValueNoTenant)
    (hbad : isValidTenantEncoding v = false) :
    Propagator.InjectContext ctx md =
      (ctx, some ⟨GrpcCode.invalidArgument,
        "bad tenant value in metadata: " ++
          TenantError.message (.invalidTenantValue v)⟩) := by
  rw [InjectContext_first hmd, if_neg (by push_neg; exact ⟨hne, hns⟩)]
  unfold tenanttype.Unmarshal
  rw [dif_neg (by simp [hbad])]

/-- Concrete C4 witness at the malformed header value "abc". -/
theorem inject_malformed_rejected_witness :
    MD.get [("x-sourcegraph-tenant-id", ["abc"])] headerKeyTenantID = ["abc"] ∧
    ("abc" ≠ "" ∧ "abc" ≠ headerValueNoTenant ∧
      isValidTenantEncoding "abc" = false) ∧
    Propagator.InjectContext Context.background
        [("x-sourcegraph-tenant-id", ["abc"])] =
      (Context.background, some ⟨GrpcCode.invalidArgument,
        "bad tenant value in metadata: " ++
          TenantError.message (.invalidTenantValue "abc")⟩) :=
  ⟨by decide, by decide,
    inject_malformed_rejected Context.background _ "abc" []
      (by decide) (by decide) (by decide) (by decide)⟩

/-- Claim C5: duplicate handling — whatever the values listed under the
reserved key, Inject consults only the first, so its outcome (returned
context and error) is identical to that on metadata carrying just that
first value. -/
theorem inject_first_value_wins (ctx : Context) (md : MD) (v : String)
    (rest : List String)
    (h : MD.get md headerKeyTenantID = v :: rest) :
    Propagator.InjectContext ctx md =
      Propagator.InjectContext ctx [(lowercaseKey headerKeyTenantID, [v])] := by
  rw [InjectContext_first h,
    InjectContext_first (MD_get_singleton headerKeyTenantID [v])]

/-- Concrete C5 witness: two values "7" and "8" under the reserved key. -/
theorem inject_first_value_wins_witness :
    MD.get [("x-sourcegraph-tenant-id", ["7", "8"])] headerKeyTenantID = ["7", "8"] ∧
    Propagator.InjectContext Context.background
        [("x-sourcegraph-tenant-id", ["7", "8"])] =
      Propagator.InjectContext Context.background
        [(lowercaseKey headerKeyTenantID, ["7"])] :=
  ⟨by decide,
    inject_first_value_wins Context.background _ "7" ["8"] (by decide)⟩

/-- Claim C6: encode/decode inversion — for every positive integer tenant
identifier n, Unmarshal applied to its decimal textual encoding succeeds
and returns the tenant whose identifier is n. -/
theorem unmarshal_encode_round_trip (n : Nat) (h : 1 ≤ n) :
    ∃ t : Tenant, tenanttype.Unmarshal (itoa n) = .ok t ∧ Tenant.ID t = n :=
  ⟨⟨n, h⟩, Unmarshal_itoa ⟨n, h⟩, rfl⟩

/-- Concrete C6 witness at n = 42. -/
theorem unmarshal_encode_round_trip_witness :
    1 ≤ 42 ∧
    ∃ t : Tenant, tenanttype.Unmarshal (itoa 42) = .ok t ∧ Tenant.ID t = 42 :=
  ⟨by decide, unmarshal_encode_round_trip 42 (by decide)⟩

/-- Claim C7: wire format of Extract — for every context the produced
metadata contains exactly one entry, keyed by the reserved tenant header
name (stored in the transport's lowercase normal form), and when a tenant
is attached the value is the base-10 string of its identifier: all decimal
digits with a nonzero leading digit, hence no leading zeros, no sign and no
whitespace. -/
theorem extract_wire_format (ctx : Context) :
    (∃ v, Propagator.FromContext ctx = [(lowercaseKey headerKeyTenantID, [v])]) ∧
    (∀ t, tenanttype.FromContext ctx = .ok t →
      Propagator.FromContext ctx =
        [(lowercaseKey headerKeyTenantID, [itoa (Tenant.ID t)])] ∧
      isValidTenantEncoding (itoa (Tenant.ID t)) = true) := by
  constructor
  · cases hctx : tenanttype.FromContext ctx with
    | error e => exact ⟨headerValueNoTenant, FromContext_err hctx⟩
    | ok t => exact ⟨itoa (Tenant.ID t), FromContext_ok hctx⟩
  · intro t ht
    exact ⟨FromContext_ok ht, itoa_valid t.property⟩

/-- Concrete C7 witness on a context carrying tenant 7. -/
theorem extract_wire_format_witness :
    tenanttype.FromContext ctx7 = .ok tenant7 ∧
    (Propagator.FromContext ctx7 =
       [(lowercaseKey headerKeyTenantID, [itoa (Tenant.ID tenant7)])] ∧
     isValidTenantEncoding (itoa (Tenant.ID tenant7)) = true) :=
  ⟨by decide, (extract_wire_format ctx7).2 tenant7 (by decide)⟩

/-- Claim C8: attach/override — attaching t1 and then t2 yields a context
whose FromContext returns t2 (the later attachment shadows the earlier),
and each WithTenant call derives a fresh context that extends the
original's unchanged attachment stack rather than mutating it. -/
theorem with_tenant_shadowing (ctx : Context) (t1 t2 : Tenant) :
    tenanttype.FromContext
        (tenanttype.WithTenant (tenanttype.WithTenant ctx t1) t2) = .ok t2 ∧
    (tenanttype.WithTenant ctx t1).attachments = t1 :: ctx.attachments ∧
    (tenanttype.WithTenant (tenanttype.WithTenant ctx t1) t2).attachments =
      t2 :: t1 :: ctx.attachments :=
  ⟨rfl, rfl, rfl⟩

/-- Claim C9: noninterference — Inject depends only on the first value
listed under the reserved key: two metadata maps that agree there (or both
lack the key) produce identical outcomes, whatever their other keys or
later duplicate values. -/
theorem inject_noninterference (ctx : Context) (md1 md2 : MD)
    (h : (MD.get md1 headerKeyTenantID).head? =
         (MD.get md2 headerKeyTenantID).head?) :
    Propagator.InjectContext ctx md1 = Propagator.InjectContext ctx md2 := by
  cases h1 : MD.get md1 headerKeyTenantID with
  | nil =>
      cases h2 : MD.get md2 headerKeyTenantID with
      | nil => rw [InjectContext_absent h1, InjectContext_absent h2]
      | cons v2 r2 => rw [h1, h2] at h; simp at h
  | cons v1 r1 =>
      cases h2 : MD.get md2 headerKeyTenantID with
      | nil => rw [h1, h2] at h; simp at h
      | cons v2 r2 =>
          rw [h1, h2] at h
          simp only [List.head?_cons, Option.some.injEq] at h
          subst h
          rw [InjectContext_first h1, InjectContext_first h2]

/-- Concrete C9 witness: extra duplicate value and an unrelated key on one
side only. -/
theorem inject_noninterference_witness :
    (MD.get [("x-sourcegraph-tenant-id", ["9", "10"]), ("other", ["z"])]
        headerKeyTenantID).head? =
      (MD.get [("x-sourcegraph-tenant-id", ["9"])] headerKeyTenantID).head? ∧
    Propagator.InjectContext Context.background
        [("x-sourcegraph-tenant-id", ["9", "10"]), ("other", ["z"])] =
      Propagator.InjectContext Context.background
        [("x-sourcegraph-tenant-id", ["9"])] :=
  ⟨by decide, inject_noninterference Context.background _ _ (by decide)⟩

/-- Claim C10 counterexample: at the concrete negative index -1 on the
slice [0], splitAtIndex takes the `idx < len(s)` branch and the Go slice
expression `s[:-1]` panics (modelled as `none`): no prefix/suffix pair is
returned, so the claim's totality over every index fails. -/
theorem split_at_index_negative_panics :
    splitAtIndex ([0] : List Nat) (-1) = none ∧
    ¬ ∃ pre suf, splitAtIndex ([0] : List Nat) (-1) = some (pre, suf) :=
  ⟨rfl, fun ⟨_, _, hc⟩ => Option.noConfusion hc⟩

/-- Claim C10 (amended to nonnegative indices): for every slice s and every
index idx with 0 ≤ idx — including idx ≥ len(s) — splitAtIndex returns
without failure a pair whose concatenation is s, whose prefix length is
min(idx, len(s)), and whose suffix is empty when idx ≥ len(s). -/
theorem split_at_index_spec {E : Type} (s : List E) (idx : Int) (h : 0 ≤ idx) :
    ∃ pre suf, splitAtIndex s idx = some (pre, suf) ∧
      pre ++ suf = s ∧ (pre.length : Int) = min idx (s.length : Int) ∧
      ((s.length : Int) ≤ idx → suf = []) := by
  unfold splitAtIndex
  by_cases hlt : idx < (s.length : Int)
  · rw [if_pos hlt, if_pos h]
    refine ⟨_, _, rfl, List.take_append_drop _ _, ?_, ?_⟩
    · rw [List.length_take]
      omega
    · intro hle
      exact absurd hlt (not_lt.mpr hle)
  · rw [if_neg hlt]
    refine ⟨s, [], rfl, by simp, ?_, fun _ => rfl⟩
    omega

/-- Concrete C10 witness: index 5 beyond the length of a 3-element slice. -/
theorem split_at_index_spec_witness :
    (0 : Int) ≤ 5 ∧
    ∃ pre suf, splitAtIndex ([1, 2, 3] : List Nat) 5 = some (pre, suf) ∧
      pre ++ suf = [1, 2, 3] ∧
      (pre.length : Int) = min 5 (([1, 2, 3] : List Nat).length : Int) ∧
      ((([1, 2, 3] : List Nat).length : Int) ≤ 5 → suf = []) :=
  ⟨by decide, split_at_index_spec [1, 2, 3] 5 (by decide)⟩
